import Mathlib

/-!
Verification development for the qiankun micro-frontend sandbox core
(fork mzy911/fork-qiankun).

The development shallowly embeds the parts of the TypeScript source that the
claims concern:

* `src/sandbox/proxySandbox.ts` — the Proxy-based (virtualized) sandbox:
  `createFakeWindow`, the `set`/`get` traps, `active`/`inactive` and the
  process-wide `activeSandboxCount`, together with the `ScopedCSS` selector
  rewriter that lives in the same file.
* `src/sandbox/index.ts` — `createSandboxContainer` (the side-effect patch
  manager) and the legacy (exclusive-instance) `LegacySandbox`.
* `src/loader.ts` — `getRender`/`render`, `getLifecyclesFromExports`, and the
  singular-mode mount/unmount pipeline with its `prevAppUnmountedDeferred`.

Modelling conventions:

* Property keys are `String`s.  JavaScript symbol keys (only
  `Symbol.unscopables` is special-cased by the source) are outside the model.
* Values are the inductive `JSVal` (`undef` models JS `undefined`; `prim n`
  models any other primitive value, with distinct `n` for distinct values).
* Objects such as `window`/`fakeWindow` are modelled as stores of data
  property descriptors `String → Option Descriptor`.  Accessor (getter/setter)
  properties are outside the model, so `createFakeWindow`'s
  `propertiesWithGetter` map is always empty and is elided, and the
  `writable || set` test of the source degenerates to `writable`.
* `getTargetValue` (function `this`-rebinding) is the identity on the
  primitive values of the model, so `get` returns the raw looked-up value.
* `process.env.NODE_ENV === 'test'` (`inTest`) is `false` (production build);
  the development-only whitelist entries are kept and controlled by the `dev`
  flag mirroring `variableWhiteListInDev`.
-/

/-- JS runtime values of the model: `undefined` or an (abstract) primitive. -/
inductive JSVal where
  | undef
  | prim (n : Nat)
deriving DecidableEq, Repr

/-- A JS data property descriptor (accessor properties are outside the model). -/
structure Descriptor where
  value : JSVal
  writable : Bool
  enumerable : Bool
  configurable : Bool
deriving DecidableEq, Repr

/-- An object's own data properties, keyed by string. -/
def Store := String → Option Descriptor

/-- The descriptor a plain JS assignment creates on a fresh key:
`{value, writable: true, enumerable: true, configurable: true}`. -/
def defaultDesc (v : JSVal) : Descriptor := ⟨v, true, true, true⟩

/-- Point update of a store. -/
def updStore (s : Store) (p : String) (d : Option Descriptor) : Store :=
  fun q => if q = p then d else s q

/-- Non-strict JS assignment `obj[p] = v` on a data-property store: creates a
default descriptor on a fresh key, updates the value of a writable key, and
silently drops the write on a non-writable key. -/
def assign (s : Store) (p : String) (v : JSVal) : Store :=
  match s p with
  | none => updStore s p (some (defaultDesc v))
  | some d => if d.writable then updStore s p (some { d with value := v }) else s

/-- The value `obj[p]` reads from a store (JS yields `undefined` on a missing key). -/
def descVal (s : Store) (p : String) : JSVal :=
  match s p with
  | some d => d.value
  | none => JSVal.undef

/-- Non-strict JS `delete obj[p]`: removes a configurable own key, silently
does nothing on a non-configurable one or a missing one. -/
def jsDelete (s : Store) (p : String) : Store :=
  match s p with
  | none => s
  | some d => if d.configurable then updStore s p none else s

/-! ## ProxySandbox (src/sandbox/proxySandbox.ts) -/

/-- The source's `globalVariableWhiteList = ['System', '__cjsWrapper', ...variableWhiteListInDev]`;
`dev` mirrors the NODE_ENV test that enables the dev-only names. -/
def globalVariableWhiteList (dev : Bool) : List String :=
  ["System", "__cjsWrapper"] ++
    (if dev then ["__REACT_ERROR_OVERLAY_GLOBAL_HOOK__", "event"] else [])

/-- The keys the `get` trap short-circuits before consulting the fake window or
the host (`window`/`self`/`globalThis` → proxy, `top`/`parent`,
`hasOwnProperty`, `document`, `eval`); the `inTest` mock keys are disabled in
the production model. -/
def specialGetKeys : List String :=
  ["window", "self", "globalThis", "top", "parent", "hasOwnProperty", "document", "eval"]

/-- The source's `createFakeWindow`: copy every non-configurable host property onto the fake
window, making `top`/`parent`/`self`/`window` (and `document` in speedy mode)
configurable and writable.  (In the data-property model no property has a
getter, so `propertiesWithGetter` is empty and elided.) -/
def createFakeWindow (globalContext : Store) (speedy : Bool) : Store := fun p =>
  match globalContext p with
  | none => none
  | some d =>
      if d.configurable then none
      else if p = "top" ∨ p = "parent" ∨ p = "self" ∨ p = "window" ∨ (p = "document" ∧ speedy) then
        some { d with configurable := true, writable := true }
      else some d

/-- The per-instance state of one `ProxySandbox`. -/
structure PSBox where
  /-- the fake window the proxy's `set` trap writes into -/
  target : Store
  sandboxRunning : Bool
  latestSetProp : Option String
  /-- The source's `updatedValueSet` (insertion list; only membership matters) -/
  updatedValueSet : List String
  /-- The source's `globalWhitelistPrevDescriptor`: `some pd` means the key was recorded,
  with `pd` the host descriptor (possibly absent) seen at recording time -/
  prevDesc : String → Option (Option Descriptor)

/-- A world of concurrently constructed Proxy sandboxes over one shared host
object, with the process-wide `activeSandboxCount` (a JS number, so `Int`). -/
structure PSWorld where
  host : Store
  activeSandboxCount : Int
  box : Nat → PSBox

/-- Point update of the sandbox family. -/
def updBox (w : PSWorld) (i : Nat) (b : PSBox) : Nat → PSBox :=
  fun n => if n = i then b else w.box n

/-- The `ProxySandbox` constructor: fresh fake window, `sandboxRunning = true`,
empty records, and `activeSandboxCount++`. -/
def newProxySandbox (w : PSWorld) (i : Nat) (speedy : Bool) : PSWorld :=
  { w with
    activeSandboxCount := w.activeSandboxCount + 1
    box := updBox w i
      { target := createFakeWindow w.host speedy
        sandboxRunning := true
        latestSetProp := none
        updatedValueSet := []
        prevDesc := fun _ => none } }

/-- The proxy `set` trap.  Returns the boolean the trap returns together with
the updated world.  While running: a whitelisted key records the current host
descriptor in `globalWhitelistPrevDescriptor` and is assigned onto the host; a
key the target does not own but the host owns is copied onto the target as a
writable data property when the host descriptor is writable (otherwise the
write is silently dropped); any other key is plainly assigned onto the target.
While not running the trap changes nothing and still returns `true` (so
strict-mode tenant code sees no `TypeError`). -/
def psSetTrap (dev : Bool) (w : PSWorld) (i : Nat) (p : String) (v : JSVal) :
    Bool × PSWorld :=
  let b := w.box i
  if b.sandboxRunning then
    if p ∈ globalVariableWhiteList dev then
      (true,
        { w with
          host := assign w.host p v
          box := updBox w i
            { b with
              prevDesc := fun q => if q = p then some (w.host p) else b.prevDesc q
              updatedValueSet := p :: b.updatedValueSet
              latestSetProp := some p } })
    else
      let target' :=
        if (b.target p).isNone ∧ (w.host p).isSome then
          match w.host p with
          | some d =>
              if d.writable then
                updStore b.target p (some ⟨v, true, d.enumerable, d.configurable⟩)
              else b.target
          | none => b.target
        else assign b.target p v
      (true,
        { w with
          box := updBox w i
            { b with
              target := target'
              updatedValueSet := p :: b.updatedValueSet
              latestSetProp := some p } })
  else (true, w)

/-- The world after a `set` through sandbox `i`'s proxy. -/
def psSet (dev : Bool) (w : PSWorld) (i : Nat) (p : String) (v : JSVal) : PSWorld :=
  (psSetTrap dev w i p v).2

/-- What the proxy `get` trap returns: one of the fixed identity/special
values, or an ordinary looked-up value. -/
inductive GetResult where
  | selfRef
  | topRef
  | hasOwnPropertyFn
  | docRef
  | evalRef
  | val (v : JSVal)
deriving DecidableEq, Repr

/-- The proxy `get` trap of sandbox `i` (the `currentRunningApp` bookkeeping of
`registerRunningApp` touches no store and is elided; `Symbol.unscopables` is a
symbol key, outside the string-key model).  Ordinary keys resolve from the
target when the target owns them, else from the host; the dead
`p === 'string'` whitelist branch of the source is kept verbatim. -/
def psGet (dev : Bool) (w : PSWorld) (i : Nat) (p : String) : GetResult :=
  let b := w.box i
  if p = "window" ∨ p = "self" then GetResult.selfRef
  else if p = "globalThis" then GetResult.selfRef
  else if p = "top" ∨ p = "parent" then GetResult.topRef
  else if p = "hasOwnProperty" then GetResult.hasOwnPropertyFn
  else if p = "document" then GetResult.docRef
  else if p = "eval" then GetResult.evalRef
  else if p = "string" ∧ p ∈ globalVariableWhiteList dev then
    GetResult.val (descVal w.host p)
  else if (b.target p).isSome then GetResult.val (descVal b.target p)
  else GetResult.val (descVal w.host p)

/-- The source's `active()`: increment the counter only when resuming from inactive. -/
def psActive (w : PSWorld) (i : Nat) : PSWorld :=
  let b := w.box i
  { w with
    activeSandboxCount :=
      if b.sandboxRunning then w.activeSandboxCount else w.activeSandboxCount + 1
    box := updBox w i { b with sandboxRunning := true } }

/-- Replay a `globalWhitelistPrevDescriptor` record onto the host: every
recorded key is restored to its recorded descriptor, or deleted when the
record says the key was absent. -/
def restorePrevDescriptors (prev : String → Option (Option Descriptor)) (h : Store) : Store :=
  fun q =>
    match prev q with
    | some pd => pd
    | none => h q

/-- The source's `inactive()`: decrement `activeSandboxCount` and, exactly when it reaches
zero, restore the whitelisted keys this instance recorded (`inTest` is `false`
in the production model); finally mark the sandbox not running. -/
def psInactive (w : PSWorld) (i : Nat) : PSWorld :=
  let b := w.box i
  { w with
    activeSandboxCount := w.activeSandboxCount - 1
    host :=
      if w.activeSandboxCount - 1 = 0 then restorePrevDescriptors b.prevDesc w.host
      else w.host
    box := updBox w i { b with sandboxRunning := false } }

/-- Whether the non-whitelist branch of the `set` trap actually lands the
written value (rather than silently dropping it). -/
def writeLands (target host : Store) (p : String) : Bool :=
  match target p with
  | some d => d.writable
  | none =>
      match host p with
      | some d => d.writable
      | none => true

/-- Whether a plain assignment onto the host lands. -/
def hostWriteLands (host : Store) (p : String) : Bool :=
  match host p with
  | some d => d.writable
  | none => true

/-! ## C1: isolation and whitelist behaviour of the Proxy sandbox -/

/-- No whitelisted key is one of the `get` trap's special keys. -/
theorem whitelist_not_special (dev : Bool) :
    ∀ p ∈ globalVariableWhiteList dev, p ∉ specialGetKeys := by
  cases dev <;> decide

/-- The literal key `"string"` is never whitelisted. -/
theorem string_not_whitelisted (dev : Bool) :
    "string" ∉ globalVariableWhiteList dev := by
  cases dev <;> decide

/-- The source's `psGet` only depends on the host and on the queried sandbox's state. -/
theorem psGet_congr (dev : Bool) (w w' : PSWorld) (i : Nat) (p : String)
    (hh : w'.host = w.host) (hb : w'.box i = w.box i) :
    psGet dev w' i p = psGet dev w i p := by
  unfold psGet
  rw [hh, hb]

/-- C1 (amended): in a world of concurrently active Proxy sandboxes, (a) a
write of an ordinary key (not whitelisted, not one of the proxy's fixed
special keys) through sandbox `i` that the descriptors allow to land is
visible reading back through `i` and invisible through any other sandbox `j`;
(b) a landing write of a whitelisted key goes to the shared host and is
visible through every sandbox whose fake window does not own the key; (c) the
cached pre-sandbox descriptors of whitelisted keys are restored onto (or
deleted from) the host exactly when the active-instance counter reaches zero
at a deactivation. -/
theorem proxySandbox_isolation_whitelist_restore
    (dev : Bool) (w : PSWorld) (i j l : Nat) (p : String) (v : JSVal) :
    ((w.box i).sandboxRunning = true → j ≠ i →
      p ∉ globalVariableWhiteList dev → p ∉ specialGetKeys →
      writeLands (w.box i).target w.host p = true →
      psGet dev (psSet dev w i p v) i p = GetResult.val v ∧
      psGet dev (psSet dev w i p v) j p = psGet dev w j p)
    ∧
    ((w.box i).sandboxRunning = true → p ∈ globalVariableWhiteList dev →
      hostWriteLands w.host p = true → ((w.box l).target p) = none →
      psGet dev (psSet dev w i p v) l p = GetResult.val v)
    ∧
    ((w.activeSandboxCount = 1 →
        (psInactive w i).host = restorePrevDescriptors (w.box i).prevDesc w.host) ∧
     (w.activeSandboxCount ≠ 1 → (psInactive w i).host = w.host)) := by
  refine ⟨?parta, ?partb, ?partc⟩
  case parta =>
    intro hrun hji hwl hsp hland
    have hspecs : ¬(p = "window" ∨ p = "self") ∧ p ≠ "globalThis" ∧
        ¬(p = "top" ∨ p = "parent") ∧ p ≠ "hasOwnProperty" ∧
        p ≠ "document" ∧ p ≠ "eval" := by
      simp only [specialGetKeys, List.mem_cons, List.not_mem_nil, or_false, not_or] at hsp
      tauto
    obtain ⟨h1, h2, h3, h4, h5, h6⟩ := hspecs
    have hw' : psSet dev w i p v =
        { w with
          box := updBox w i
            { w.box i with
              target :=
                if ((w.box i).target p).isNone ∧ (w.host p).isSome then
                  match w.host p with
                  | some d =>
                      if d.writable then
                        updStore (w.box i).target p (some ⟨v, true, d.enumerable, d.configurable⟩)
                      else (w.box i).target
                  | none => (w.box i).target
                else assign (w.box i).target p v
              updatedValueSet := p :: (w.box i).updatedValueSet
              latestSetProp := some p } } := by
      unfold psSet psSetTrap
      simp only [hrun, if_true, if_neg hwl]
    constructor
    · -- visibility through i's own handle
      rw [hw']
      unfold psGet
      simp only [if_neg h1, if_neg h2, if_neg h3, if_neg h4, if_neg h5, if_neg h6]
      have hstr : ¬(p = "string" ∧ p ∈ globalVariableWhiteList dev) := by
        intro hc
        exact hwl hc.2
      simp only [if_neg hstr, updBox, if_pos rfl]
      -- the written key is now on the target with value v
      rcases ht : (w.box i).target p with _ | d
      · rcases hh : w.host p with _ | d0
        · simp only [writeLands, ht, hh] at hland
          simp [ht, hh, assign, updStore, descVal, defaultDesc]
        · have : ((w.box i).target p).isNone ∧ (w.host p).isSome := by
            simp [ht, hh]
          simp only [writeLands, ht, hh] at hland
          simp [ht, hh, hland, updStore, descVal, defaultDesc]
      · simp only [writeLands, ht] at hland
        have hcond : ¬(((w.box i).target p).isNone ∧ (w.host p).isSome) := by
          simp [ht]
        simp [hcond, assign, ht, hland, updStore, descVal, defaultDesc]
    · -- invisibility through j's handle
      apply psGet_congr
      · rw [hw']
      · rw [hw']
        simp [updBox, hji]
  case partb =>
    intro hrun hwl hland htl
    have hsp : p ∉ specialGetKeys := whitelist_not_special dev p hwl
    have hspecs : ¬(p = "window" ∨ p = "self") ∧ p ≠ "globalThis" ∧
        ¬(p = "top" ∨ p = "parent") ∧ p ≠ "hasOwnProperty" ∧
        p ≠ "document" ∧ p ≠ "eval" := by
      simp only [specialGetKeys, List.mem_cons, List.not_mem_nil, or_false, not_or] at hsp
      tauto
    obtain ⟨h1, h2, h3, h4, h5, h6⟩ := hspecs
    have hstr : ¬(p = "string" ∧ p ∈ globalVariableWhiteList dev) := by
      rintro ⟨hps, hmem⟩
      subst hps
      exact string_not_whitelisted dev hmem
    have hw' : psSet dev w i p v =
        { w with
          host := assign w.host p v
          box := updBox w i
            { w.box i with
              prevDesc := fun q => if q = p then some (w.host p) else (w.box i).prevDesc q
              updatedValueSet := p :: (w.box i).updatedValueSet
              latestSetProp := some p } } := by
      unfold psSet psSetTrap
      simp only [hrun, if_true, if_pos hwl]
    rw [hw']
    unfold psGet
    simp only [if_neg h1, if_neg h2, if_neg h3, if_neg h4, if_neg h5, if_neg h6, if_neg hstr]
    have htl' : (updBox w i
        { w.box i with
          prevDesc := fun q => if q = p then some (w.host p) else (w.box i).prevDesc q
          updatedValueSet := p :: (w.box i).updatedValueSet
          latestSetProp := some p } l).target p = none := by
      unfold updBox
      by_cases hl : l = i
      · subst hl
        simp [htl]
      · simp [hl, htl]
    simp only [htl', Option.isNone_none]
    rcases hh : w.host p with _ | d
    · simp [assign, hh, updStore, descVal, defaultDesc]
    · simp only [hostWriteLands, hh] at hland
      simp [assign, hh, hland, updStore, descVal, defaultDesc]
  case partc =>
    constructor
    · intro hc
      unfold psInactive
      simp [hc]
    · intro hc
      unfold psInactive
      have : w.activeSandboxCount - 1 ≠ 0 := by
        intro h0
        exact hc (by linarith [sub_eq_zero.mp h0])
      simp [this]

/-- An all-absent host store for demonstration worlds. -/
def psEmptyBox : PSBox :=
  { target := fun _ => none
    sandboxRunning := false
    latestSetProp := none
    updatedValueSet := []
    prevDesc := fun _ => none }

/-- A demonstration world: two freshly constructed Proxy sandboxes (ids 0 and
1) over an empty shared host, counter at 2. -/
def psDemoWorld : PSWorld :=
  newProxySandbox
    (newProxySandbox { host := fun _ => none, activeSandboxCount := 0, box := fun _ => psEmptyBox }
      0 false)
    1 false

/-- C1 witness: in the two-sandbox demonstration world, sandbox 0's write of
`x` is visible to itself and invisible to sandbox 1; sandbox 0's write of the
whitelisted `System` is visible through sandbox 1; and deactivating one of the
two active sandboxes does not restore the host. -/
theorem proxySandbox_isolation_whitelist_restore_witness :
    psGet false (psSet false psDemoWorld 0 "x" (JSVal.prim 5)) 0 "x" = GetResult.val (JSVal.prim 5) ∧
    psGet false (psSet false psDemoWorld 0 "x" (JSVal.prim 5)) 1 "x" = psGet false psDemoWorld 1 "x" ∧
    psGet false (psSet false psDemoWorld 0 "System" (JSVal.prim 7)) 1 "System" = GetResult.val (JSVal.prim 7) ∧
    (psInactive psDemoWorld 0).host = psDemoWorld.host := by
  have ha := (proxySandbox_isolation_whitelist_restore false psDemoWorld 0 1 1 "x" (JSVal.prim 5)).1
    (by decide) (by decide) (by decide) (by decide) (by decide)
  have hb := (proxySandbox_isolation_whitelist_restore false psDemoWorld 0 1 1 "System" (JSVal.prim 7)).2.1
    (by decide) (by decide) (by decide) (by decide)
  have hc := (proxySandbox_isolation_whitelist_restore false psDemoWorld 0 1 1 "x" (JSVal.prim 5)).2.2.2
    (by decide)
  exact ⟨ha.1, ha.2, hb, hc⟩

/-- A host owning a non-writable (but configurable) key `k` with value `prim 0`. -/
def c1Host : Store :=
  fun q => if q = "k" then some ⟨JSVal.prim 0, false, true, true⟩ else none

/-- A world with a single fresh Proxy sandbox over `c1Host`. -/
def c1World : PSWorld :=
  newProxySandbox { host := c1Host, activeSandboxCount := 0, box := fun _ => psEmptyBox } 0 false

/-- C1 counterexample: the claim says every write through a sandbox's own
handle is visible reading back through that handle, but a write to a key whose
host descriptor is non-writable is silently dropped by the `set` trap, so the
read returns the old host value `prim 0` instead of the written `prim 1`. -/
theorem C1_counterexample :
    psGet false (psSet false c1World 0 "k" (JSVal.prim 1)) 0 "k" = GetResult.val (JSVal.prim 0) ∧
    GetResult.val (JSVal.prim 0) ≠ GetResult.val (JSVal.prim 1) := by
  constructor
  · decide
  · decide

/-! ## LegacySandbox (src/sandbox/index.ts, second half) -/

/-- The exclusive-instance (legacy) sandbox state; `host` is the shared
`globalContext` the sandbox mutates directly. -/
structure LegacyState where
  host : Store
  /-- The source's `addedPropsMapInSandbox` (key → value written; only keys matter for restore) -/
  addedProps : String → Option JSVal
  /-- The source's `modifiedPropsOriginalValueMapInSandbox` (key → host value before first divergence) -/
  modifiedProps : String → Option JSVal
  /-- The source's `currentUpdatedPropsValueMap` -/
  currentProps : String → Option JSVal
  sandboxRunning : Bool
  latestSetProp : Option String

/-- The source's `isPropConfigurable`: `descriptor ? descriptor.configurable : true`. -/
def isPropConfigurable (s : Store) (p : String) : Bool :=
  match s p with
  | some d => d.configurable
  | none => true

/-- The source's `setWindowProp(prop, value, toDelete)`: delete the key when asked to
delete an `undefined` value (a non-strict `delete`, silently failing on a
non-configurable key); otherwise, when the key is configurable (string keys
only in this model), `Object.defineProperty(globalContext, prop, {writable:
true, configurable: true})` followed by the assignment — a fresh key is
created with `enumerable: false` as `defineProperty` defaults it. -/
def setWindowProp (h : Store) (p : String) (v : JSVal) (toDelete : Bool) : Store :=
  if v = JSVal.undef ∧ toDelete then jsDelete h p
  else if isPropConfigurable h p then
    match h p with
    | some d => updStore h p (some ⟨v, true, d.enumerable, true⟩)
    | none => updStore h p (some ⟨v, true, false, true⟩)
  else h

/-- Point update of a value map. -/
def updMap (m : String → Option JSVal) (p : String) (v : Option JSVal) :
    String → Option JSVal :=
  fun q => if q = p then v else m q

/-- The legacy `setTrap(p, value, originalValue, sync2Window)`: while running,
record the key as added (host does not own it) or capture the original value
once (host owns it and no original was captured yet), record the current
value, optionally assign onto the host, and remember the latest set key; while
inactive, change nothing.  The returned boolean is always `true` so that
strict-mode tenant code sees no `TypeError`. -/
def legacySetTrap (s : LegacyState) (p : String) (v originalValue : JSVal)
    (sync2Window : Bool) : Bool × LegacyState :=
  if s.sandboxRunning then
    let s₁ :=
      if (s.host p).isNone then { s with addedProps := updMap s.addedProps p (some v) }
      else if (s.modifiedProps p).isNone then
        { s with modifiedProps := updMap s.modifiedProps p (some originalValue) }
      else s
    let s₂ := { s₁ with currentProps := updMap s₁.currentProps p (some v) }
    let s₃ := if sync2Window then { s₂ with host := assign s₂.host p v } else s₂
    (true, { s₃ with latestSetProp := some p })
  else (true, s)

/-- The legacy proxy's `set` handler: `originalValue = rawWindow[p]`, then
`setTrap(p, value, originalValue, true)`. -/
def legacyWrite (s : LegacyState) (p : String) (v : JSVal) : LegacyState :=
  (legacySetTrap s p v (descVal s.host p) true).2

/-- A freshly constructed legacy sandbox over host `h0`. -/
def freshLegacy (h0 : Store) : LegacyState :=
  { host := h0
    addedProps := fun _ => none
    modifiedProps := fun _ => none
    currentProps := fun _ => none
    sandboxRunning := true
    latestSetProp := none }

/-- Run a sequence of writes through the legacy proxy. -/
def runWrites (s : LegacyState) : List (String × JSVal) → LegacyState
  | [] => s
  | (p, v) :: ws => runWrites (legacyWrite s p v) ws

/-- The host after `inactive()`: every key of `modifiedPropsOriginalValueMapInSandbox`
is restored via `setWindowProp`, then every key of `addedPropsMapInSandbox` is
deleted via `setWindowProp(p, undefined, true)`.  Each iteration of the
source's two `forEach` loops touches exactly the key of its own entry, so the
fold is expressed pointwise per key, with the modified-restore applied before
the added-delete exactly as in the source. -/
def legacyInactiveHost (s : LegacyState) : Store := fun q =>
  let afterModified : Option Descriptor :=
    match s.modifiedProps q with
    | some ov => setWindowProp s.host q ov false q
    | none => s.host q
  match s.addedProps q with
  | some _ =>
      -- `setWindowProp(p, undefined, true)` on the host as left by the restore step
      match afterModified with
      | none => none
      | some d => if d.configurable then none else some d
  | none => afterModified

/-- The source's `inactive()` on the legacy sandbox. -/
def legacyInactive (s : LegacyState) : LegacyState :=
  { s with host := legacyInactiveHost s, sandboxRunning := false }

/-! ## C2: legacy restore-on-deactivate -/

/-- The invariant relating a legacy sandbox state to the host `h0` observed
before the sandbox's first activation, maintained by every write. -/
def LegacyInv (h0 : Store) (s : LegacyState) : Prop :=
  s.sandboxRunning = true ∧
  ∀ p : String,
    ((s.addedProps p).isSome → h0 p = none ∧ ∃ v, s.host p = some (defaultDesc v)) ∧
    (s.addedProps p = none → ∀ ov, s.modifiedProps p = some ov →
      ∃ d0, h0 p = some d0 ∧ ov = d0.value ∧
        ∃ d, s.host p = some d ∧ d.writable = d0.writable ∧
          d.configurable = d0.configurable ∧
          (d0.writable = false → d.value = d0.value)) ∧
    (s.addedProps p = none → s.modifiedProps p = none → s.host p = h0 p)

theorem legacyInv_fresh (h0 : Store) : LegacyInv h0 (freshLegacy h0) := by
  refine ⟨rfl, fun p => ⟨?_, ?_, ?_⟩⟩ <;> simp [freshLegacy]

/-- A write of a key the host does not own: recorded as added, created on the
host by the assignment. -/
theorem legacyWrite_not_owned (s : LegacyState) (p : String) (v : JSVal)
    (hrun : s.sandboxRunning = true) (hhost : s.host p = none) :
    legacyWrite s p v =
      { s with
        addedProps := updMap s.addedProps p (some v)
        currentProps := updMap s.currentProps p (some v)
        host := updStore s.host p (some (defaultDesc v))
        latestSetProp := some p } := by
  unfold legacyWrite legacySetTrap
  simp [hrun, hhost, assign]

/-- A first write of a host-owned key: the pre-write host value is captured in
the modified-properties map. -/
theorem legacyWrite_first_capture (s : LegacyState) (p : String) (v : JSVal)
    (d : Descriptor) (hrun : s.sandboxRunning = true) (hhost : s.host p = some d)
    (hmod : s.modifiedProps p = none) :
    legacyWrite s p v =
      { s with
        modifiedProps := updMap s.modifiedProps p (some d.value)
        currentProps := updMap s.currentProps p (some v)
        host := assign s.host p v
        latestSetProp := some p } := by
  unfold legacyWrite legacySetTrap
  simp [hrun, hhost, hmod, descVal]

/-- A later write of an already-captured host-owned key: the modified map is
left untouched. -/
theorem legacyWrite_already_captured (s : LegacyState) (p : String) (v : JSVal)
    (d : Descriptor) (ov : JSVal) (hrun : s.sandboxRunning = true)
    (hhost : s.host p = some d) (hmod : s.modifiedProps p = some ov) :
    legacyWrite s p v =
      { s with
        currentProps := updMap s.currentProps p (some v)
        host := assign s.host p v
        latestSetProp := some p } := by
  unfold legacyWrite legacySetTrap
  simp [hrun, hhost, hmod]

/-- The source's `assign` leaves every other key unchanged. -/
theorem assign_ne (s : Store) (p q : String) (v : JSVal) (h : q ≠ p) :
    assign s p v q = s q := by
  unfold assign
  rcases s p with _ | d
  · simp [updStore, h]
  · by_cases hw : d.writable = true <;> simp [hw, updStore, h]

theorem legacyInv_write (h0 : Store) (s : LegacyState) (p : String) (v : JSVal)
    (hinv : LegacyInv h0 s) : LegacyInv h0 (legacyWrite s p v) := by
  obtain ⟨hrun, hp⟩ := hinv
  rcases hhost : s.host p with _ | d
  · rw [legacyWrite_not_owned s p v hrun hhost]
    refine ⟨hrun, fun q => ?_⟩
    by_cases hq : q = p
    · subst hq
      have hadded : s.addedProps q = none := by
        by_contra hne
        obtain ⟨-, v0, hv0⟩ := (hp q).1 (Option.isSome_iff_ne_none.mpr hne)
        rw [hhost] at hv0
        exact Option.noConfusion hv0
      have hmod : s.modifiedProps q = none := by
        rcases hmo : s.modifiedProps q with _ | ov
        · rfl
        · obtain ⟨d0, hd0, -, d, hd, -⟩ := (hp q).2.1 hadded ov hmo
          rw [hhost] at hd
          exact Option.noConfusion hd
      have h0q : h0 q = none := by
        have := (hp q).2.2 hadded hmod
        rw [hhost] at this
        exact this.symm
      refine ⟨fun _ => ⟨h0q, v, by simp [updMap, updStore]⟩, ?_, ?_⟩
      · intro hcontra
        simp [updMap] at hcontra
      · intro hcontra
        simp [updMap] at hcontra
    · refine ⟨?_, ?_, ?_⟩
      · intro hsome
        simp only [updMap, if_neg hq] at hsome
        obtain ⟨ha, w, hw⟩ := (hp q).1 hsome
        exact ⟨ha, w, by simp only [updStore, if_neg hq]; exact hw⟩
      · intro hnone ov hov
        simp only [updMap, if_neg hq] at hnone hov
        obtain ⟨d0, h1, h2, d, h3, h4, h5, h6⟩ := (hp q).2.1 hnone ov hov
        exact ⟨d0, h1, h2, d, by simp only [updStore, if_neg hq]; exact h3, h4, h5, h6⟩
      · intro hnone hmod
        simp only [updMap, if_neg hq] at hnone hmod
        have := (hp q).2.2 hnone hmod
        simp only [updStore, if_neg hq]
        exact this
  · rcases hmod : s.modifiedProps p with _ | ov₀
    · rw [legacyWrite_first_capture s p v d hrun hhost hmod]
      refine ⟨hrun, fun q => ?_⟩
      by_cases hq : q = p
      · subst hq
        refine ⟨?_, ?_, ?_⟩
        · intro hsome
          obtain ⟨ha, w, hw⟩ := (hp q).1 hsome
          refine ⟨ha, v, ?_⟩
          rw [hw] at hhost
          obtain rfl := Option.some_injective _ hhost
          simp [assign, hw, defaultDesc, updStore]
        · intro hadded ov hov
          simp only [updMap, if_pos rfl] at hov
          obtain rfl := Option.some_injective _ hov
          have hh0 : h0 q = some d := by
            have := (hp q).2.2 hadded hmod
            rw [hhost] at this
            exact this.symm
          refine ⟨d, hh0, rfl, ?_⟩
          by_cases hw : d.writable = true
          · refine ⟨{ d with value := v }, by simp [assign, hhost, hw, updStore], by simp, by simp, ?_⟩
            intro hfalse
            rw [hfalse] at hw
            cases hw
          · refine ⟨d, ?_, rfl, rfl, fun _ => rfl⟩
            have hw' : d.writable = false := by
              rcases hb : d.writable
              · rfl
              · exact absurd hb hw
            simp only [assign, hhost, hw', if_false]
            exact hhost
        · intro hadded hmod'
          simp [updMap] at hmod'
      · refine ⟨?_, ?_, ?_⟩
        · intro hsome
          obtain ⟨ha, w, hw⟩ := (hp q).1 hsome
          exact ⟨ha, w, by dsimp only; rw [assign_ne s.host p q v hq]; exact hw⟩
        · intro hnone ov hov
          simp only [updMap, if_neg hq] at hov
          obtain ⟨d0, h1, h2, d', h3, h4, h5, h6⟩ := (hp q).2.1 hnone ov hov
          exact ⟨d0, h1, h2, d', by dsimp only; rw [assign_ne s.host p q v hq]; exact h3, h4, h5, h6⟩
        · intro hnone hmod'
          simp only [updMap, if_neg hq] at hmod'
          have := (hp q).2.2 hnone hmod'
          dsimp only
          rw [assign_ne s.host p q v hq]
          exact this
    · rw [legacyWrite_already_captured s p v d ov₀ hrun hhost hmod]
      refine ⟨hrun, fun q => ?_⟩
      by_cases hq : q = p
      · subst hq
        refine ⟨?_, ?_, ?_⟩
        · intro hsome
          obtain ⟨ha, w, hw⟩ := (hp q).1 hsome
          refine ⟨ha, v, ?_⟩
          rw [hw] at hhost
          obtain rfl := Option.some_injective _ hhost
          simp [assign, hw, defaultDesc, updStore]
        · intro hadded ov hov
          obtain ⟨d0, h1, h2, d', h3, h4, h5, h6⟩ := (hp q).2.1 hadded ov hov
          rw [hhost] at h3
          obtain rfl := Option.some_injective _ h3
          refine ⟨d0, h1, h2, ?_⟩
          by_cases hw : d.writable = true
          · refine ⟨{ d with value := v }, by simp [assign, hhost, hw, updStore], by simpa using h4, by simpa using h5, ?_⟩
            intro hfalse
            rw [hw] at h4
            rw [hfalse] at h4
            cases h4
          · have hw' : d.writable = false := by
              rcases hb : d.writable
              · rfl
              · exact absurd hb hw
            refine ⟨d, ?_, h4, h5, h6⟩
            simp only [assign, hhost, hw', if_false]
            exact hhost
        · intro hadded hmod'
          rw [hmod'] at hmod
          cases hmod
      · refine ⟨?_, ?_, ?_⟩
        · intro hsome
          obtain ⟨ha, w, hw⟩ := (hp q).1 hsome
          exact ⟨ha, w, by dsimp only; rw [assign_ne s.host p q v hq]; exact hw⟩
        · intro hnone ov hov
          obtain ⟨d0, h1, h2, d', h3, h4, h5, h6⟩ := (hp q).2.1 hnone ov hov
          exact ⟨d0, h1, h2, d', by dsimp only; rw [assign_ne s.host p q v hq]; exact h3, h4, h5, h6⟩
        · intro hnone hmod'
          have := (hp q).2.2 hnone hmod'
          dsimp only
          rw [assign_ne s.host p q v hq]
          exact this


theorem legacyInv_runWrites (h0 : Store) (s : LegacyState)
    (ws : List (String × JSVal)) (hinv : LegacyInv h0 s) :
    LegacyInv h0 (runWrites s ws) := by
  induction ws generalizing s with
  | nil => exact hinv
  | cons w ws ih => exact ih _ (legacyInv_write h0 s w.1 w.2 hinv)

/-- Evaluating `setWindowProp` (restore direction, `toDelete` absent) at its
own key when the current host descriptor is configurable. -/
theorem setWindowProp_at_configurable (h : Store) (p : String) (ov : JSVal)
    (d : Descriptor) (hd : h p = some d) (hc : d.configurable = true) :
    setWindowProp h p ov false p = some ⟨ov, true, d.enumerable, true⟩ := by
  unfold setWindowProp isPropConfigurable
  rw [hd]
  simp [hc, updStore]

/-- C2 (amended): after `inactive()` following any sequence of writes through
the legacy sandbox's proxy, every host-global key that existed before the
sandbox's first activation *and whose descriptor is configurable* holds its
original value again (`setWindowProp` skips non-configurable keys), and every
key the sandbox added is absent from the host. -/
theorem legacy_inactive_restores (h0 : Store) (ws : List (String × JSVal)) (p : String) :
    (∀ d : Descriptor, h0 p = some d → d.configurable = true →
      Option.map Descriptor.value ((legacyInactive (runWrites (freshLegacy h0) ws)).host p)
        = some d.value) ∧
    (h0 p = none → (legacyInactive (runWrites (freshLegacy h0) ws)).host p = none) := by
  have hinv := legacyInv_runWrites h0 (freshLegacy h0) ws (legacyInv_fresh h0)
  set s := runWrites (freshLegacy h0) ws with hs
  obtain ⟨-, hp⟩ := hinv
  constructor
  · intro d hd hcfg
    have hadded : s.addedProps p = none := by
      rcases hap : s.addedProps p with _ | v0
      · rfl
      · obtain ⟨h0p, -⟩ := (hp p).1 (by simp [hap])
        rw [hd] at h0p
        exact Option.noConfusion h0p
    show Option.map Descriptor.value (legacyInactiveHost s p) = some d.value
    unfold legacyInactiveHost
    rcases hmp : s.modifiedProps p with _ | ov
    · have hhp : s.host p = h0 p := (hp p).2.2 hadded hmp
      simp only [hadded, hhp, hd]
      rfl
    · obtain ⟨d0, hd0, hov, dd, hdd, hw, hc, -⟩ := (hp p).2.1 hadded ov hmp
      rw [hd] at hd0
      obtain rfl := Option.some_injective _ hd0
      have hcfg' : dd.configurable = true := by rw [hc, hcfg]
      subst hov
      have hsw := setWindowProp_at_configurable s.host p d.value dd hdd hcfg'
      simp only [hadded, hsw]
      rfl
  · intro hd
    show legacyInactiveHost s p = none
    unfold legacyInactiveHost
    rcases hap : s.addedProps p with _ | v0
    · rcases hmp : s.modifiedProps p with _ | ov
      · have hhp : s.host p = h0 p := (hp p).2.2 hap hmp
        simp only [hap, hmp, hhp, hd]
      · obtain ⟨d0, hd0, -⟩ := (hp p).2.1 hap ov hmp
        rw [hd] at hd0
        exact Option.noConfusion hd0
    · obtain ⟨-, v1, hv1⟩ := (hp p).1 (by simp [hap])
      rcases hmp : s.modifiedProps p with _ | ov
      · simp only [hap, hmp, hv1, defaultDesc]
        rfl
      · have hsw := setWindowProp_at_configurable s.host p ov (defaultDesc v1) hv1 rfl
        simp only [hap, hsw]
        rfl

/-- A host owning a writable but NON-configurable key `k` with value `prim 0`. -/
def c2Host : Store :=
  fun q => if q = "k" then some ⟨JSVal.prim 0, true, true, false⟩ else none

/-- C2 counterexample: the claim says every pre-existing host key regains its
original value after `inactive()`, but a key whose host descriptor is
non-configurable is skipped by `setWindowProp`'s `isPropConfigurable` guard,
so after one tenant write it keeps the tenant's value `prim 1` rather than the
original `prim 0`. -/
theorem C2_counterexample :
    Option.map Descriptor.value
        ((legacyInactive (runWrites (freshLegacy c2Host) [("k", JSVal.prim 1)])).host "k")
      = some (JSVal.prim 1) ∧
    JSVal.prim 1 ≠ JSVal.prim 0 := by
  constructor
  · decide
  · decide

/-- A host owning only the configurable key `a ↦ prim 0`, for the C2 witness. -/
def legacyDemoHost : Store :=
  fun q => if q = "a" then some (defaultDesc (JSVal.prim 0)) else none

/-- C2 witness: over `legacyDemoHost`, the write sequence
`a := prim 1; b := prim 2; a := prim 3` is fully rolled back by `inactive()`:
`a` regains `prim 0` and the added `b` is absent. -/
theorem legacy_inactive_restores_witness :
    Option.map Descriptor.value
        ((legacyInactive (runWrites (freshLegacy legacyDemoHost)
          [("a", JSVal.prim 1), ("b", JSVal.prim 2), ("a", JSVal.prim 3)])).host "a")
      = some (JSVal.prim 0) ∧
    (legacyInactive (runWrites (freshLegacy legacyDemoHost)
      [("a", JSVal.prim 1), ("b", JSVal.prim 2), ("a", JSVal.prim 3)])).host "b" = none := by
  constructor
  · exact (legacy_inactive_restores legacyDemoHost
      [("a", JSVal.prim 1), ("b", JSVal.prim 2), ("a", JSVal.prim 3)] "a").1
      (defaultDesc (JSVal.prim 0)) (by decide) (by decide)
  · exact (legacy_inactive_restores legacyDemoHost
      [("a", JSVal.prim 1), ("b", JSVal.prim 2), ("a", JSVal.prim 3)] "b").2 (by decide)

/-! ## C6: capture-once of pre-modification values -/

/-- One legacy write never changes an already-captured original value. -/
theorem legacyWrite_preserves_captured (s : LegacyState) (q p : String)
    (v ov : JSVal) (hcap : s.modifiedProps p = some ov) :
    (legacyWrite s q v).modifiedProps p = some ov := by
  unfold legacyWrite legacySetTrap
  rcases hrun : s.sandboxRunning
  · simpa using hcap
  · simp only [if_true]
    rcases hhq : s.host q with _ | d
    · simpa using hcap
    · rcases hmq : s.modifiedProps q with _ | ovq
      · by_cases hpq : p = q
        · subst hpq
          rw [hcap] at hmq
          cases hmq
        · simp [hhq, hmq, updMap, hpq, hcap]
      · simp [hhq, hmq, hcap]

/-- C6 (amended): the legacy sandbox's modified-properties record captures the
pre-modification host value exactly once — at the first write diverging a
host-owned key — and never overwrites it during the activation window; the
Proxy sandbox's cached pre-write host descriptor for a whitelisted key is
instead re-captured at every write (so a later write records the host state
the sandbox itself produced, not the pre-sandbox one). -/
theorem modified_props_capture_once
    (s : LegacyState) (p : String) (v ov : JSVal) (ws : List (String × JSVal))
    (d : Descriptor) (dev : Bool) (w : PSWorld) (i : Nat) (pk : String) (pv : JSVal) :
    (s.modifiedProps p = some ov → (runWrites s ws).modifiedProps p = some ov) ∧
    (s.sandboxRunning = true → s.host p = some d → s.modifiedProps p = none →
      (legacyWrite s p v).modifiedProps p = some d.value) ∧
    ((w.box i).sandboxRunning = true → pk ∈ globalVariableWhiteList dev →
      ((psSet dev w i pk pv).box i).prevDesc pk = some (w.host pk)) := by
  refine ⟨?_, ?_, ?_⟩
  · intro hcap
    induction ws generalizing s with
    | nil => exact hcap
    | cons hd tl ih =>
        exact ih (legacyWrite s hd.1 hd.2) (legacyWrite_preserves_captured s hd.1 p hd.2 ov hcap)
  · intro hrun hhost hmod
    rw [legacyWrite_first_capture s p v d hrun hhost hmod]
    simp [updMap]
  · intro hrun hwl
    unfold psSet psSetTrap
    simp only [hrun, if_true, if_pos hwl, updBox, if_pos rfl]

/-- A host owning the whitelisted key `System ↦ prim 0`, for C6. -/
def c6Host : Store :=
  fun q => if q = "System" then some (defaultDesc (JSVal.prim 0)) else none

/-- A world with a single fresh Proxy sandbox over `c6Host`. -/
def c6World : PSWorld :=
  newProxySandbox { host := c6Host, activeSandboxCount := 0, box := fun _ => psEmptyBox } 0 false

/-- C6 counterexample: the claim says the cached pre-write host descriptor of
a whitelisted key is captured at most once and never overwritten, but after a
second write of `System` through the same Proxy sandbox the cached descriptor
is the descriptor produced by the sandbox's own first write (`prim 1`), not
the pre-sandbox one (`prim 0`). -/
theorem C6_counterexample :
    ((psSet false (psSet false c6World 0 "System" (JSVal.prim 1)) 0 "System"
        (JSVal.prim 2)).box 0).prevDesc "System"
      = some (some (defaultDesc (JSVal.prim 1))) ∧
    defaultDesc (JSVal.prim 1) ≠ defaultDesc (JSVal.prim 0) := by
  constructor
  · decide
  · decide

/-- C6 witness: over `legacyDemoHost`, the first write of `a` captures
`prim 0`, and the capture survives two further writes; and over `c6World` a
first write of the whitelisted `System` records the pre-write host descriptor. -/
theorem modified_props_capture_once_witness :
    (legacyWrite (freshLegacy legacyDemoHost) "a" (JSVal.prim 1)).modifiedProps "a"
      = some (JSVal.prim 0) ∧
    (runWrites (legacyWrite (freshLegacy legacyDemoHost) "a" (JSVal.prim 1))
      [("a", JSVal.prim 4), ("a", JSVal.prim 5)]).modifiedProps "a" = some (JSVal.prim 0) ∧
    ((psSet false c6World 0 "System" (JSVal.prim 1)).box 0).prevDesc "System"
      = some (some (defaultDesc (JSVal.prim 0))) := by
  refine ⟨?_, ?_, ?_⟩
  · exact (modified_props_capture_once (freshLegacy legacyDemoHost) "a" (JSVal.prim 1)
      JSVal.undef [] (defaultDesc (JSVal.prim 0)) false c6World 0 "System" (JSVal.prim 1)).2.1
      (by decide) (by decide) (by decide)
  · exact (modified_props_capture_once (legacyWrite (freshLegacy legacyDemoHost) "a" (JSVal.prim 1))
      "a" JSVal.undef (JSVal.prim 0) [("a", JSVal.prim 4), ("a", JSVal.prim 5)]
      (defaultDesc (JSVal.prim 0)) false c6World 0 "System" (JSVal.prim 1)).1
      (by decide)
  · exact (modified_props_capture_once (freshLegacy legacyDemoHost) "a" (JSVal.prim 1)
      JSVal.undef [] (defaultDesc (JSVal.prim 0)) false c6World 0 "System" (JSVal.prim 1)).2.2
      (by decide) (by decide)

/-! ## C7: writes while inactive never throw and are dropped -/

/-- C7: on both sandboxes, a `set` attempted while the sandbox is not running
returns `true` from the trap (so strict-mode tenant code sees no `TypeError`)
and leaves the sandbox records and the host object completely unchanged. -/
theorem inactive_set_never_throws
    (dev : Bool) (w : PSWorld) (i : Nat) (p : String) (v : JSVal)
    (s : LegacyState) (q : String) (lv ov : JSVal) (sync : Bool) :
    ((w.box i).sandboxRunning = false → psSetTrap dev w i p v = (true, w)) ∧
    (s.sandboxRunning = false → legacySetTrap s q lv ov sync = (true, s)) := by
  constructor
  · intro hrun
    unfold psSetTrap
    simp [hrun]
  · intro hrun
    unfold legacySetTrap
    simp [hrun]

/-- C7 witness: a deactivated Proxy sandbox and a deactivated legacy sandbox
both accept-and-drop a write. -/
theorem inactive_set_never_throws_witness :
    psSetTrap false (psInactive psDemoWorld 0) 0 "x" (JSVal.prim 1)
      = (true, psInactive psDemoWorld 0) ∧
    legacySetTrap (legacyInactive (freshLegacy legacyDemoHost)) "x" (JSVal.prim 1)
      JSVal.undef true
      = (true, legacyInactive (freshLegacy legacyDemoHost)) := by
  constructor
  · exact (inactive_set_never_throws false (psInactive psDemoWorld 0) 0 "x" (JSVal.prim 1)
      (legacyInactive (freshLegacy legacyDemoHost)) "x" (JSVal.prim 1) JSVal.undef true).1
      (by decide)
  · exact (inactive_set_never_throws false (psInactive psDemoWorld 0) 0 "x" (JSVal.prim 1)
      (legacyInactive (freshLegacy legacyDemoHost)) "x" (JSVal.prim 1) JSVal.undef true).2
      (by decide)

/-! ## C4: the side-effect patch manager (src/sandbox/index.ts, createSandboxContainer) -/

/-- Observable events of the patch manager.  A `Freer` and the `Rebuilder` it
returns when invoked are identified by one shared tag. -/
inductive PatchEvent where
  | installBootstrapPatches (ids : List Nat)
  | installMountPatches (ids : List Nat)
  | rebuild (id : Nat)
  | free (id : Nat)
  | sandboxActive
  | sandboxInactive
deriving DecidableEq, Repr

/-- The mutable closure state of `createSandboxContainer`:
`bootstrappingFreers` (fixed at construction), `mountingFreers` (reinstalled
per mount) and `sideEffectsRebuilders` (filled by unmount, consumed and
cleared by the next mount). -/
structure SandboxContainerM where
  bootstrappingFreers : List Nat
  mountingFreers : List Nat
  sideEffectsRebuilders : List Nat
deriving DecidableEq, Repr

/-- The source's `createSandboxContainer`: the bootstrap-point patches are installed once,
at construction. -/
def createSandboxContainerM (bootIds : List Nat) : SandboxContainerM × List PatchEvent :=
  ({ bootstrappingFreers := bootIds, mountingFreers := [], sideEffectsRebuilders := [] },
   [PatchEvent.installBootstrapPatches bootIds])

/-- The source's `mount()`: activate the sandbox, replay the rebuilders sliced at
`bootstrappingFreers.length` (bootstrap-point rebuilders first), install the
mount-point patches fresh (`patchAtMounting`, producing `freshIds`), replay
the mount-point rebuilders, and clear `sideEffectsRebuilders`. -/
def SandboxContainerM.mount (c : SandboxContainerM) (freshIds : List Nat) :
    SandboxContainerM × List PatchEvent :=
  let bootRebuilders := c.sideEffectsRebuilders.take c.bootstrappingFreers.length
  let mountRebuilders := c.sideEffectsRebuilders.drop c.bootstrappingFreers.length
  ({ c with mountingFreers := freshIds, sideEffectsRebuilders := [] },
   [PatchEvent.sandboxActive] ++ bootRebuilders.map PatchEvent.rebuild ++
     [PatchEvent.installMountPatches freshIds] ++ mountRebuilders.map PatchEvent.rebuild)

/-- The source's `unmount()`: invoke every outstanding free handle
(`[...bootstrappingFreers, ...mountingFreers].map(free => free())`), store the
returned rebuilders in that order, then deactivate the sandbox. -/
def SandboxContainerM.unmount (c : SandboxContainerM) :
    SandboxContainerM × List PatchEvent :=
  ({ c with sideEffectsRebuilders := c.bootstrappingFreers ++ c.mountingFreers },
   (c.bootstrappingFreers ++ c.mountingFreers).map PatchEvent.free ++
     [PatchEvent.sandboxInactive])

/-- Run a sequence of mount/unmount cycles, each mount installing the given
fresh mount-point patch tags, concatenating the emitted events. -/
def runCycles (c : SandboxContainerM) : List (List Nat) → SandboxContainerM × List PatchEvent
  | [] => (c, [])
  | m :: rest =>
      let mc := c.mount m
      let uc := mc.1.unmount
      let rc := runCycles uc.1 rest
      (rc.1, mc.2 ++ uc.2 ++ rc.2)

/-- Whether an event is a bootstrap-point installation. -/
def PatchEvent.isInstallBootstrap : PatchEvent → Bool
  | PatchEvent.installBootstrapPatches _ => true
  | _ => false

theorem countP_map_rebuild (l : List Nat) :
    (l.map PatchEvent.rebuild).countP (fun e => PatchEvent.isInstallBootstrap e) = 0 := by
  induction l with
  | nil => rfl
  | cons x xs ih => simp [List.countP_cons, PatchEvent.isInstallBootstrap, ih]

theorem countP_map_free (l : List Nat) :
    (l.map PatchEvent.free).countP (fun e => PatchEvent.isInstallBootstrap e) = 0 := by
  induction l with
  | nil => rfl
  | cons x xs ih => simp [List.countP_cons, PatchEvent.isInstallBootstrap, ih]

/-- Mount/unmount cycles never emit a bootstrap installation. -/
theorem runCycles_no_bootstrap_install (c : SandboxContainerM) (ms : List (List Nat)) :
    ((runCycles c ms).2).countP (fun e => PatchEvent.isInstallBootstrap e) = 0 := by
  induction ms generalizing c with
  | nil => rfl
  | cons m rest ih =>
      show ((c.mount m).2 ++ ((c.mount m).1.unmount).2 ++
          (runCycles ((c.mount m).1.unmount).1 rest).2).countP
            (fun e => PatchEvent.isInstallBootstrap e) = 0
      rw [List.countP_append, List.countP_append, ih]
      unfold SandboxContainerM.mount SandboxContainerM.unmount
      simp only [List.countP_append, countP_map_rebuild, countP_map_free]
      simp [List.countP_cons, PatchEvent.isInstallBootstrap]

theorem take_length_append {α : Type} (a b : List α) : (a ++ b).take a.length = a := by
  induction a with
  | nil => rfl
  | cons x xs ih => simp [ih]

theorem drop_length_append {α : Type} (a b : List α) : (a ++ b).drop a.length = b := by
  induction a with
  | nil => rfl
  | cons x xs ih => simp [ih]

theorem count_map_free_nodup (l : List Nat) (f : Nat) (hdup : l.Nodup) (hf : f ∈ l) :
    (l.map PatchEvent.free).count (PatchEvent.free f) = 1 := by
  induction l with
  | nil => cases hf
  | cons x xs ih =>
      rcases List.mem_cons.mp hf with rfl | hmem
      · have hx : f ∉ xs := (List.nodup_cons.mp hdup).1
        have : (xs.map PatchEvent.free).count (PatchEvent.free f) = 0 := by
          rw [List.count_eq_zero]
          intro hc
          obtain ⟨y, hy, hyf⟩ := List.mem_map.mp hc
          cases hyf
          exact hx hy
        simp [List.count_cons, this]
      · have hx : x ≠ f := by
          rintro rfl
          exact (List.nodup_cons.mp hdup).1 hmem
        have := ih (List.nodup_cons.mp hdup).2 hmem
        simp only [List.map_cons, List.count_cons, this]
        simp [hx]

/-- C4: for every container, (a) over any sequence of mount/unmount cycles the
bootstrap-point installers run exactly once, at construction, and never again;
(b) a mount immediately following an unmount first replays the rebuilders
collected from the bootstrap-point frees, then installs the mount-point
patches fresh, then replays the rebuilders collected from the mount-point
frees, in exactly that order; (c) an unmount invokes every outstanding free
handle exactly once and stores the returned rebuilders with the bootstrap-point
ones before the mount-point ones. -/
theorem sandbox_container_patch_protocol
    (bootIds : List Nat) (ms : List (List Nat)) (c : SandboxContainerM)
    (freshIds : List Nat) (f : Nat) :
    (((createSandboxContainerM bootIds).2 ++
        (runCycles (createSandboxContainerM bootIds).1 ms).2).countP
        (fun e => PatchEvent.isInstallBootstrap e) = 1 ∧
      (createSandboxContainerM bootIds).2.head? = some (PatchEvent.installBootstrapPatches bootIds)) ∧
    ((c.unmount.1.mount freshIds).2 =
      [PatchEvent.sandboxActive] ++ c.bootstrappingFreers.map PatchEvent.rebuild ++
        [PatchEvent.installMountPatches freshIds] ++ c.mountingFreers.map PatchEvent.rebuild) ∧
    ((c.bootstrappingFreers ++ c.mountingFreers).Nodup →
      f ∈ c.bootstrappingFreers ++ c.mountingFreers →
      c.unmount.2.count (PatchEvent.free f) = 1) ∧
    (c.unmount.1.sideEffectsRebuilders = c.bootstrappingFreers ++ c.mountingFreers) := by
  refine ⟨⟨?_, rfl⟩, ?_, ?_, rfl⟩
  · rw [List.countP_append, runCycles_no_bootstrap_install]
    rfl
  · show (SandboxContainerM.mount _ freshIds).2 = _
    unfold SandboxContainerM.mount SandboxContainerM.unmount
    simp only [take_length_append, drop_length_append]
  · intro hdup hf
    unfold SandboxContainerM.unmount
    rw [List.count_append, count_map_free_nodup _ f hdup hf]
    simp

/-- C4 witness: a container with bootstrap freers `[0, 1]`, one full cycle
with mount freers `[2]` followed by a second mount with fresh freers `[3]`. -/
theorem sandbox_container_patch_protocol_witness :
    (((createSandboxContainerM [0, 1]).2 ++
        (runCycles (createSandboxContainerM [0, 1]).1 [[2]]).2).countP
        (fun e => PatchEvent.isInstallBootstrap e) = 1) ∧
    ((SandboxContainerM.unmount ⟨[0, 1], [2], []⟩).1.mount [3]).2 =
      [PatchEvent.sandboxActive, PatchEvent.rebuild 0, PatchEvent.rebuild 1,
        PatchEvent.installMountPatches [3], PatchEvent.rebuild 2] ∧
    (SandboxContainerM.unmount ⟨[0, 1], [2], []⟩).2.count (PatchEvent.free 2) = 1 ∧
    (SandboxContainerM.unmount ⟨[0, 1], [2], []⟩).1.sideEffectsRebuilders = [0, 1, 2] := by
  have h := sandbox_container_patch_protocol [0, 1] [[2]] ⟨[0, 1], [2], []⟩ [3] 2
  exact ⟨h.1.1, h.2.1, h.2.2.1 (by decide) (by decide), h.2.2.2⟩

/-! ## C3: singular-mode mount ordering (src/loader.ts parcelConfig) -/

/-- The mount pipeline steps of `parcelConfig.mount`, in source order. -/
inductive MountStep where
  | perfMarkRemount
  | waitPrevUnmount
  | initWrapperGetter
  | ensureContainerRendered
  | mountSandboxStep
  | beforeMountHooksStep
  | tenantMountHook
  | renderMounted
  | afterMountHooksStep
  | armUnmountDeferred
  | perfMeasureStep
deriving DecidableEq, Repr

/-- The unmount pipeline steps of `parcelConfig.unmount`, in source order. -/
inductive UnmountStep where
  | beforeUnmountHooksStep
  | tenantUnmountHook
  | unmountSandboxStep
  | afterUnmountHooksStep
  | renderUnmounted
  | resolveUnmountDeferred
deriving DecidableEq, Repr

/-- The source's `parcelConfig.mount` as an ordered step list. -/
def mountSteps : List MountStep :=
  [MountStep.perfMarkRemount, MountStep.waitPrevUnmount, MountStep.initWrapperGetter,
   MountStep.ensureContainerRendered, MountStep.mountSandboxStep,
   MountStep.beforeMountHooksStep, MountStep.tenantMountHook, MountStep.renderMounted,
   MountStep.afterMountHooksStep, MountStep.armUnmountDeferred, MountStep.perfMeasureStep]

/-- The source's `parcelConfig.unmount` as an ordered step list. -/
def unmountSteps : List UnmountStep :=
  [UnmountStep.beforeUnmountHooksStep, UnmountStep.tenantUnmountHook,
   UnmountStep.unmountSandboxStep, UnmountStep.afterUnmountHooksStep,
   UnmountStep.renderUnmounted, UnmountStep.resolveUnmountDeferred]

/-- A configuration of the two interleaved pipelines under singular mode:
tenant A is mounted (so A's mount armed a fresh, unresolved
`prevAppUnmountedDeferred`) and its unmount pipeline is at step `aPc`; tenant
B's mount pipeline is at step `bPc`; `deferredResolved` tells whether the
current deferred has been resolved. -/
structure PipelineCfg where
  aPc : Nat
  bPc : Nat
  deferredResolved : Bool
deriving DecidableEq, Repr

/-- A mounted, B about to start mounting, deferred armed and unresolved. -/
def initialCfg : PipelineCfg := ⟨0, 0, false⟩

/-- Complete A's next unmount step, if any; the final step resolves the
deferred (`prevAppUnmountedDeferred.resolve()`). -/
def stepA (c : PipelineCfg) : Option PipelineCfg :=
  match unmountSteps.get? c.aPc with
  | none => none
  | some u =>
      some { aPc := c.aPc + 1, bPc := c.bPc,
             deferredResolved :=
               if u = UnmountStep.resolveUnmountDeferred then true else c.deferredResolved }

/-- Complete B's next mount step, if any.  The wait step returns
`prevAppUnmountedDeferred.promise`, so it cannot complete until the deferred
is resolved; the arm step installs a fresh unresolved deferred. -/
def stepB (c : PipelineCfg) : Option PipelineCfg :=
  match mountSteps.get? c.bPc with
  | none => none
  | some m =>
      if m = MountStep.waitPrevUnmount ∧ c.deferredResolved = false then none
      else
        some { aPc := c.aPc, bPc := c.bPc + 1,
               deferredResolved :=
                 if m = MountStep.armUnmountDeferred then false else c.deferredResolved }

/-- Run a cooperative schedule: `true` picks A's pipeline, `false` picks B's. -/
def runSched (c : PipelineCfg) : List Bool → Option PipelineCfg
  | [] => some c
  | choice :: rest =>
      match (if choice then stepA c else stepB c) with
      | none => none
      | some c1 => runSched c1 rest

/-- The inductive invariant of the interleaving: the deferred is resolved only
after A's resolve step; B past its wait step (and not yet past its re-arm
step) implies the deferred is resolved; B past its tenant-mount step implies A
finished its resolve step. -/
def PipeInv (c : PipelineCfg) : Prop :=
  (c.deferredResolved = true → 6 ≤ c.aPc) ∧
  (2 ≤ c.bPc → c.bPc ≤ 9 → c.deferredResolved = true) ∧
  (7 ≤ c.bPc → 6 ≤ c.aPc)

theorem pipeInv_initial : PipeInv initialCfg := by
  refine ⟨?_, ?_, ?_⟩ <;> simp [initialCfg]

theorem pipeInv_stepA (c c1 : PipelineCfg) (h : stepA c = some c1) (hinv : PipeInv c) :
    PipeInv c1 := by
  obtain ⟨h1, h2, h3⟩ := hinv
  unfold stepA at h
  rcases hu : unmountSteps.get? c.aPc with _ | u
  · rw [hu] at h
    cases h
  · rw [hu] at h
    dsimp only at h
    obtain rfl := Option.some_injective _ h
    have haPc : c.aPc ≤ 5 := by
      by_contra hgt
      push_neg at hgt
      have : unmountSteps.get? c.aPc = none := by
        apply List.get?_eq_none.mpr
        simpa [unmountSteps] using hgt
      rw [this] at hu
      cases hu
    refine ⟨?_, ?_, ?_⟩ <;> dsimp only
    · intro hres
      by_cases he : u = UnmountStep.resolveUnmountDeferred
      · have h5 : c.aPc = 5 := by
          subst he
          interval_cases hpc : c.aPc <;> simp_all [unmountSteps]
        omega
      · rw [if_neg he] at hres
        have := h1 hres
        omega
    · intro hb1 hb2
      by_cases he : u = UnmountStep.resolveUnmountDeferred
      · simp [he]
      · rw [if_neg he]
        exact h2 hb1 hb2
    · intro hb
      have := h3 hb
      omega

theorem pipeInv_stepB (c c1 : PipelineCfg) (h : stepB c = some c1) (hinv : PipeInv c) :
    PipeInv c1 := by
  obtain ⟨h1, h2, h3⟩ := hinv
  unfold stepB at h
  rcases hm : mountSteps.get? c.bPc with _ | m
  · rw [hm] at h
    cases h
  · rw [hm] at h
    dsimp only at h
    by_cases hblock : m = MountStep.waitPrevUnmount ∧ c.deferredResolved = false
    · rw [if_pos hblock] at h
      cases h
    · rw [if_neg hblock] at h
      obtain rfl := Option.some_injective _ h
      have hbpc : c.bPc ≤ 10 := by
        by_contra hgt
        push_neg at hgt
        have : mountSteps.get? c.bPc = none := by
          apply List.get?_eq_none.mpr
          simpa [mountSteps] using hgt
        rw [this] at hm
        cases hm
      refine ⟨?_, ?_, ?_⟩ <;> dsimp only
      · intro hres
        by_cases ha : m = MountStep.armUnmountDeferred
        · rw [if_pos ha] at hres
          cases hres
        · rw [if_neg ha] at hres
          exact h1 hres
      · intro hb1 hb2
        by_cases ha : m = MountStep.armUnmountDeferred
        · -- the arm step is at index 9, so completing it gives bPc = 10 > 9
          exfalso
          subst ha
          have h9 : c.bPc = 9 := by
            interval_cases hpc : c.bPc <;> simp_all [mountSteps]
          omega
        · rw [if_neg ha]
          rcases Nat.lt_or_ge c.bPc 2 with hlt | hge
          · -- completing the step at index ≤ 1; reaching bPc ≥ 2 means index 1,
            -- the wait step, whose guard requires the deferred to be resolved
            have hb1' : c.bPc = 1 := by omega
            have hwait : m = MountStep.waitPrevUnmount := by
              rw [hb1'] at hm
              simpa [mountSteps] using hm.symm
            by_cases hres : c.deferredResolved = true
            · exact hres
            · exact absurd ⟨hwait, by simpa using hres⟩ hblock
          · exact h2 hge (by omega)
      · intro hb
        rcases Nat.lt_or_ge c.bPc 7 with hlt | hge
        · -- this step completed index 6, the tenant mount hook
          have : c.deferredResolved = true := h2 (by omega) (by omega)
          exact h1 this
        · exact h3 hge

theorem pipeInv_runSched (sched : List Bool) (c c1 : PipelineCfg)
    (h : runSched c sched = some c1) (hinv : PipeInv c) : PipeInv c1 := by
  induction sched generalizing c with
  | nil =>
      unfold runSched at h
      obtain rfl := Option.some_injective _ h
      exact hinv
  | cons choice rest ih =>
      unfold runSched at h
      rcases hstep : (if choice then stepA c else stepB c) with _ | c2
      · rw [hstep] at h
        cases h
      · rw [hstep] at h
        rcases choice with _ | _
        · exact ih c2 h (pipeInv_stepB c c2 (by simpa using hstep) hinv)
        · exact ih c2 h (pipeInv_stepA c c2 (by simpa using hstep) hinv)

/-- C3: in any cooperative interleaving under singular mode starting from "A
mounted with a fresh unresolved deferred, B's mount pipeline requested", if
B's pipeline has completed its tenant-mount step (`bPc ≥ 7`) then A's unmount
pipeline has completed its deferred-resolving final step (`aPc ≥ 6`): B's
tenant-provided mount hook never runs before A's unmount resolves the
completion deferred. -/
theorem singular_mount_waits_for_unmount (sched : List Bool) (c : PipelineCfg)
    (h : runSched initialCfg sched = some c) (hmounted : 7 ≤ c.bPc) :
    6 ≤ c.aPc :=
  (pipeInv_runSched sched initialCfg c h pipeInv_initial).2.2 hmounted

/-- C3 witness: the schedule that runs all six of A's unmount steps and then
all eleven of B's mount steps reaches `bPc = 11` with `aPc = 6`. -/
theorem singular_mount_waits_for_unmount_witness :
    runSched initialCfg
        [true, true, true, true, true, true,
         false, false, false, false, false, false, false, false, false, false, false]
      = some ⟨6, 11, false⟩ ∧
    6 ≤ (PipelineCfg.mk 6 11 false).aPc := by
  constructor
  · decide
  · exact singular_mount_waits_for_unmount
      [true, true, true, true, true, true,
       false, false, false, false, false, false, false, false, false, false, false]
      ⟨6, 11, false⟩ (by decide) (by decide)

/-! ## C5: lifecycle-hook discovery (src/loader.ts getLifecyclesFromExports) -/

/-- A candidate lifecycle value: `objVal b m u` is an object exposing
bootstrap/mount/unmount functions according to the three flags; `other` is any
non-matching value. -/
inductive CandVal where
  | undef
  | objVal (hasBootstrap hasMount hasUnmount : Bool)
  | other
deriving DecidableEq, Repr

/-- Modelled from the spec: `validateExportLifecycle` (defined in `src/utils.ts`,
which is not under src/) is the capability-shape predicate
`hasFields(bootstrap, mount, unmount)` — true iff the value exposes bootstrap,
mount and unmount functions. -/
def validateExportLifecycle : CandVal → Bool
  | CandVal.objVal b m u => b && m && u
  | _ => false

/-- Modelled from the spec: `QiankunError` (defined in `src/error.ts`, which is
not under src/) is the framework's typed error carrying a message. -/
structure QiankunError where
  message : String
deriving DecidableEq, Repr

/-- JS truthiness of a recorded `latestSetProp` string key (`if
(globalLatestSetProp)`): the empty string is falsy. -/
def jsTruthyKey (k : String) : Bool := k ≠ ""

/-- The source's `getLifecyclesFromExports(scriptExports, appName, global, globalLatestSetProp)`:
the export value if it has the hook shape; else, when the latest-set key is
truthy, the sandboxed global's value at that key if it has the hook shape;
else the sandboxed global's value named after the tenant; else a typed
`QiankunError` is thrown. -/
def getLifecyclesFromExports (scriptExports : CandVal) (appName : String)
    (global : String → CandVal) (globalLatestSetProp : Option String) :
    Except QiankunError CandVal :=
  if validateExportLifecycle scriptExports then Except.ok scriptExports
  else
    let fallback : Except QiankunError CandVal :=
      let globalVariableExports := global appName
      if validateExportLifecycle globalVariableExports then Except.ok globalVariableExports
      else Except.error ⟨"You need to export lifecycle functions in " ++ appName ++ " entry"⟩
    match globalLatestSetProp with
    | some k =>
        if jsTruthyKey k then
          let lifecycles := global k
          if validateExportLifecycle lifecycles then Except.ok lifecycles else fallback
        else fallback
    | none => fallback

/-- C5 (amended): discovery returns, in order, (1) the export value when it has
the hook shape; (2) the value of the sandbox's most-recently-written global
property, provided the recorded key is truthy (non-empty) and the value has
the hook shape; (3) the sandboxed-global property named after the tenant when
it has the hook shape; and when all candidates fail it throws a typed
`QiankunError` rather than returning null/undefined. -/
theorem lifecycle_discovery_order (scriptExports : CandVal) (appName : String)
    (global : String → CandVal) (lsp : Option String) :
    (validateExportLifecycle scriptExports = true →
      getLifecyclesFromExports scriptExports appName global lsp = Except.ok scriptExports) ∧
    (∀ k, validateExportLifecycle scriptExports = false → lsp = some k →
      jsTruthyKey k = true → validateExportLifecycle (global k) = true →
      getLifecyclesFromExports scriptExports appName global lsp = Except.ok (global k)) ∧
    (validateExportLifecycle scriptExports = false →
      (∀ k, lsp = some k → jsTruthyKey k = false ∨ validateExportLifecycle (global k) = false) →
      validateExportLifecycle (global appName) = true →
      getLifecyclesFromExports scriptExports appName global lsp = Except.ok (global appName)) ∧
    (validateExportLifecycle scriptExports = false →
      (∀ k, lsp = some k → jsTruthyKey k = false ∨ validateExportLifecycle (global k) = false) →
      validateExportLifecycle (global appName) = false →
      getLifecyclesFromExports scriptExports appName global lsp =
        Except.error ⟨"You need to export lifecycle functions in " ++ appName ++ " entry"⟩) := by
  refine ⟨?_, ?_, ?_, ?_⟩
  · intro h
    unfold getLifecyclesFromExports
    simp [h]
  · intro k h hlsp htr hval
    subst hlsp
    unfold getLifecyclesFromExports
    simp [h, htr, hval]
  · intro h hk hval
    unfold getLifecyclesFromExports
    rcases lsp with _ | k
    · simp [h, hval]
    · rcases hk k rfl with hfalsy | hnotshape
      · simp [h, hfalsy, hval]
      · by_cases htr : jsTruthyKey k = true
        · simp [h, htr, hnotshape, hval]
        · have hfalse : jsTruthyKey k = false := by simpa using htr
          simp [h, hfalse, hval]
  · intro h hk hval
    unfold getLifecyclesFromExports
    rcases lsp with _ | k
    · simp [h, hval]
    · rcases hk k rfl with hfalsy | hnotshape
      · simp [h, hfalsy, hval]
      · by_cases htr : jsTruthyKey k = true
        · simp [h, htr, hnotshape, hval]
        · have hfalse : jsTruthyKey k = false := by simpa using htr
          simp [h, hfalse, hval]

/-- The sandboxed global used by the C5 counterexample: a valid lifecycle
object sits at the empty-string key and nowhere else. -/
def c5Global : String → CandVal :=
  fun k => if k = "" then CandVal.objVal true true true else CandVal.other

/-- C5 counterexample: the claim says candidate (2) — the most-recently-written
global property — is returned whenever its value has the hook shape, but the
source guards it with a JS truthiness test of the key (`if
(globalLatestSetProp)`), so with latest-set key `""` holding a valid lifecycle
object the discovery skips it and throws instead. -/
theorem C5_counterexample :
    validateExportLifecycle (c5Global "") = true ∧
    getLifecyclesFromExports CandVal.other "app" c5Global (some "") =
      Except.error ⟨"You need to export lifecycle functions in app entry"⟩ := by
  constructor
  · decide
  · rfl

/-- C5 witness: each of the four discovery outcomes at concrete inputs. -/
theorem lifecycle_discovery_order_witness :
    getLifecyclesFromExports (CandVal.objVal true true true) "app" c5Global none
      = Except.ok (CandVal.objVal true true true) ∧
    getLifecyclesFromExports CandVal.other "app"
        (fun k => if k = "hooks" then CandVal.objVal true true true else CandVal.other)
        (some "hooks")
      = Except.ok (CandVal.objVal true true true) ∧
    getLifecyclesFromExports CandVal.other "app"
        (fun k => if k = "app" then CandVal.objVal true true true else CandVal.other) none
      = Except.ok (CandVal.objVal true true true) ∧
    getLifecyclesFromExports CandVal.other "app" (fun _ => CandVal.other) none
      = Except.error ⟨"You need to export lifecycle functions in app entry"⟩ := by
  refine ⟨?_, ?_, ?_, ?_⟩
  · exact (lifecycle_discovery_order (CandVal.objVal true true true) "app" c5Global none).1
      (by decide)
  · have h := (lifecycle_discovery_order CandVal.other "app"
      (fun k => if k = "hooks" then CandVal.objVal true true true else CandVal.other)
      (some "hooks")).2.1 "hooks" (by decide) rfl (by decide) (by decide)
    simpa using h
  · have h := (lifecycle_discovery_order CandVal.other "app"
      (fun k => if k = "app" then CandVal.objVal true true true else CandVal.other) none).2.2.1
      (by decide) (by intro k hk; cases hk) (by decide)
    simpa using h
  · exact (lifecycle_discovery_order CandVal.other "app" (fun _ => CandVal.other) none).2.2.2
      (by decide) (by intro k hk; cases hk) (by decide)

/-! ## C10: the default renderer (src/loader.ts getRender / render) -/

/-- The render phases of `ElementRender`. -/
inductive RenderPhase where
  | loading
  | mounting
  | mounted
  | unmounted
deriving DecidableEq, Repr

/-- A container element, holding the ids of its child elements (the model
flattens the subtree, which suffices for `contains`/append/remove of the
single app wrapper element). -/
structure ContainerEl where
  children : List Nat
deriving DecidableEq, Repr

/-- The source's `containerElement.contains(element)`; `contains(null)` is `false`. -/
def containerContains (c : ContainerEl) (element : Option Nat) : Bool :=
  match element with
  | some e => c.children.contains e
  | none => false

/-- The error message `assertElementExist` receives per phase, mirroring the
template strings of the source's `switch (phase)`. -/
def renderErrorMsg (appInstanceId containerRef : String) : RenderPhase → String
  | RenderPhase.loading =>
      "Target container with " ++ containerRef ++ " not existed while " ++ appInstanceId ++ " loading!"
  | RenderPhase.mounting =>
      "Target container with " ++ containerRef ++ " not existed while " ++ appInstanceId ++ " mounting!"
  | RenderPhase.mounted =>
      "Target container with " ++ containerRef ++ " not existed after " ++ appInstanceId ++ " mounted!"
  | RenderPhase.unmounted =>
      "Target container with " ++ containerRef ++ " not existed while " ++ appInstanceId ++ " rendering!"

/-- The default (non-legacy) `render` produced by `getRender`: resolve the
container; except in the `unmounted` phase, a missing container is a fatal
named `QiankunError`; when the container exists and does not already contain
the element, clear it and append the element (when present).  The result is
the updated container (or `none` when it was missing). -/
def render (appInstanceId containerRef : String) (lookup : String → Option ContainerEl)
    (element : Option Nat) (phase : RenderPhase) :
    Except QiankunError (Option ContainerEl) :=
  let containerElement := lookup containerRef
  if phase ≠ RenderPhase.unmounted ∧ containerElement = none then
    Except.error ⟨renderErrorMsg appInstanceId containerRef phase⟩
  else
    match containerElement with
    | some c =>
        if containerContains c element then Except.ok (some c)
        else
          Except.ok (some ⟨match element with
            | some e => [e]
            | none => []⟩)
    | none => Except.ok none

/-- C10: with a missing target container, the default renderer throws the
phase-specific named `QiankunError` in the `loading`, `mounting` and `mounted`
phases, but in the `unmounted` phase it tolerates the missing container,
performs no detachment, and returns normally. -/
theorem render_missing_container (appInstanceId containerRef : String)
    (lookup : String → Option ContainerEl) (element : Option Nat)
    (hmissing : lookup containerRef = none) :
    (render appInstanceId containerRef lookup element RenderPhase.loading =
        Except.error ⟨renderErrorMsg appInstanceId containerRef RenderPhase.loading⟩) ∧
    (render appInstanceId containerRef lookup element RenderPhase.mounting =
        Except.error ⟨renderErrorMsg appInstanceId containerRef RenderPhase.mounting⟩) ∧
    (render appInstanceId containerRef lookup element RenderPhase.mounted =
        Except.error ⟨renderErrorMsg appInstanceId containerRef RenderPhase.mounted⟩) ∧
    (render appInstanceId containerRef lookup element RenderPhase.unmounted =
        Except.ok none) := by
  refine ⟨?_, ?_, ?_, ?_⟩ <;> unfold render <;> simp [hmissing]

/-- C10 witness: the four phase outcomes at a concrete missing container. -/
theorem render_missing_container_witness :
    (render "app" "#box" (fun _ => none) (some 1) RenderPhase.loading =
        Except.error ⟨renderErrorMsg "app" "#box" RenderPhase.loading⟩) ∧
    (render "app" "#box" (fun _ => none) (some 1) RenderPhase.unmounted = Except.ok none) := by
  have h := render_missing_container "app" "#box" (fun _ => none) (some 1) rfl
  exact ⟨h.1, h.2.2.2⟩

/-! ## ScopedCSS (src/sandbox/proxySandbox.ts, ScopedCSS class)

The selector rewriter works on JS strings through four regexes:

* `rootSelectorRE = /((?:[^\w\-.#]|^)(body|html|:root))/gm`
* `rootCombinationRE = /(html[^\w{[]+)/gm`
* `siblingSelectorRE = /(html[^\w{]+)(\+|~)/gm`
* the grouping pass `cssText.replace(/^[\s\S]+{/, selectors =>
    selectors.replace(/(^|,\n?)([^,]+)/g, ...))`

Each regex is embedded as an explicit matcher over `List Char`.  The
`lastIndex` statefulness of the `/g` regex objects is irrelevant here: a
failed `test` resets `lastIndex` to 0, a successful `test` is always followed
by a `replace` of the same regex object, and a `replace` of a global regex
both starts from index 0 and leaves `lastIndex` at 0 — so every `test` in the
source runs with `lastIndex = 0` and the embedding can be stateless.
Replacement strings are taken literally (the scoping prefixes contain no `$`
patterns).  Recursions over scan positions are structured on an explicit fuel
seeded with the string length plus one, which each scan step (always advancing
at least one position) can never exhaust. -/

/-- JS `\w`, i.e. `[A-Za-z0-9_]`. -/
def isWordChar (c : Char) : Bool := c.isAlpha || c.isDigit || c = '_'

/-- The character class `[^\w\-.#]` of `rootSelectorRE`. -/
def notWordDashDotHash (c : Char) : Bool := !(isWordChar c || c = '-' || c = '.' || c = '#')

/-- Does `lit` occur in `cs` starting at index `i`? -/
def matchLit (cs : List Char) (i : Nat) (lit : List Char) : Bool :=
  lit.isPrefixOf (cs.drop i)

/-- Match `(body|html|:root)` at index `i` (alternatives in source order),
returning the token length. -/
def rootTokenAt (cs : List Char) (i : Nat) : Option Nat :=
  if matchLit cs i "body".toList then some 4
  else if matchLit cs i "html".toList then some 4
  else if matchLit cs i ":root".toList then some 5
  else none

/-- Matching `^` under the `m` flag: start of string or right after a newline. -/
def lineStart (cs : List Char) (i : Nat) : Bool :=
  i = 0 || cs.getD (i - 1) ' ' = '\n'

/-- Match `rootSelectorRE` at index `i`: first the `[^\w\-.#]` alternative
consuming one character before the root token, then the zero-width `^`
alternative; returns the total match length. -/
def rootSelectorMatchAt (cs : List Char) (i : Nat) : Option Nat :=
  match (if i < cs.length then
           (if notWordDashDotHash (cs.getD i ' ') then rootTokenAt cs (i + 1) else none)
         else none) with
  | some len => some (len + 1)
  | none => if lineStart cs i then rootTokenAt cs i else none

/-- The slice of `cs` of length `len` starting at `i`. -/
def sliceCs (cs : List Char) (i len : Nat) : List Char := (cs.drop i).take len

/-- The source's `rootSelectorRE.test`: does it match anywhere? -/
def rootSelectorTest (cs : List Char) : Bool :=
  (List.range (cs.length + 1)).any (fun i => (rootSelectorMatchAt cs i).isSome)

/-- Global `replace` of `rootSelectorRE`, the replacement computed from the
matched substring. -/
def rootSelectorReplaceAux (cs : List Char) (repl : List Char → List Char) :
    Nat → Nat → List Char
  | 0, _ => []
  | fuel + 1, i =>
      if i ≥ cs.length then []
      else
        match rootSelectorMatchAt cs i with
        | some len => repl (sliceCs cs i len) ++ rootSelectorReplaceAux cs repl fuel (i + max len 1)
        | none => cs.getD i ' ' :: rootSelectorReplaceAux cs repl fuel (i + 1)

def rootSelectorReplace (cs : List Char) (repl : List Char → List Char) : List Char :=
  rootSelectorReplaceAux cs repl (cs.length + 1) 0

/-- The character class `[^\w{[]` of `rootCombinationRE`. -/
def combTailChar (c : Char) : Bool := !(isWordChar c || c = '\x7b' || c = '[')

/-- Match `rootCombinationRE` (`html[^\w{[]+`, greedy) at index `i`. -/
def rootCombinationMatchAt (cs : List Char) (i : Nat) : Option Nat :=
  if matchLit cs i "html".toList then
    let r := ((cs.drop (i + 4)).takeWhile combTailChar).length
    if 1 ≤ r then some (4 + r) else none
  else none

/-- The source's `rootCombinationRE.test`. -/
def rootCombinationTest (cs : List Char) : Bool :=
  (List.range (cs.length + 1)).any (fun i => (rootCombinationMatchAt cs i).isSome)

/-- Global `replace` of `rootCombinationRE` with the empty string. -/
def rootCombinationEraseAux (cs : List Char) : Nat → Nat → List Char
  | 0, _ => []
  | fuel + 1, i =>
      if i ≥ cs.length then []
      else
        match rootCombinationMatchAt cs i with
        | some len => rootCombinationEraseAux cs fuel (i + max len 1)
        | none => cs.getD i ' ' :: rootCombinationEraseAux cs fuel (i + 1)

def rootCombinationErase (cs : List Char) : List Char :=
  rootCombinationEraseAux cs (cs.length + 1) 0

/-- The character class `[^\w{]` of `siblingSelectorRE`. -/
def sibClassChar (c : Char) : Bool := !(isWordChar c || c = '\x7b')

/-- Match `siblingSelectorRE` (`(html[^\w{]+)(\+|~)`) at index `i`: `html`,
one or more class characters (the greedy run backtracking to leave a `+` or
`~`), so a match exists iff a `+`/`~` occurs within the class run at offset
two or later after `html`. -/
def siblingMatchAt (cs : List Char) (i : Nat) : Bool :=
  matchLit cs i "html".toList &&
    (((cs.drop (i + 4)).takeWhile sibClassChar).drop 1).any (fun c => c = '+' || c = '~')

/-- The source's `siblingSelectorRE.test`. -/
def siblingSelectorTest (cs : List Char) : Bool :=
  (List.range (cs.length + 1)).any (fun i => siblingMatchAt cs i)

/-- The greatest index `k ≥ 1` with `cs[k] = '{'` — the end of the single
anchored greedy match of `/^[\s\S]+{/`, which needs at least one character
before the brace. -/
def lastBraceIdx (cs : List Char) : Option Nat :=
  (List.range cs.length).foldl
    (fun acc k => if cs.getD k ' ' = '\x7b' ∧ 1 ≤ k then some k else acc) none

/-- The source's `cssText.replace(/^[\s\S]+{/, f)`: rewrite the selector head (everything
up to the last `{`) with `f`, or leave the string unchanged when the regex
does not match. -/
def outerHeadReplace (cs : List Char) (f : List Char → List Char) : List Char :=
  match lastBraceIdx cs with
  | some k => f (cs.take (k + 1)) ++ cs.drop (k + 1)
  | none => cs

/-- Global `replace` of `/(^|,\n?)([^,]+)/g` with a function replacer
`repl item p s` (no `m` flag: `^` matches only at index 0, tracked by
`atStart`). -/
def innerReplAux (repl : List Char → List Char → List Char → List Char) :
    Nat → List Char → Bool → List Char
  | 0, _, _ => []
  | _ + 1, [], _ => []
  | fuel + 1, c :: rest, atStart =>
      if c = ',' then
        match rest with
        | '\n' :: rest2 =>
            let s2 := rest2.takeWhile (fun ch => !(ch == ','))
            if s2.isEmpty then
              -- backtrack the optional `\n` into the `[^,]+` group
              let s := ('\n' :: rest2).takeWhile (fun ch => !(ch == ','))
              repl ([','] ++ s) [','] s ++
                innerReplAux repl fuel (('\n' :: rest2).drop s.length) false
            else
              repl ([',', '\n'] ++ s2) [',', '\n'] s2 ++
                innerReplAux repl fuel (rest2.drop s2.length) false
        | _ =>
            let s := rest.takeWhile (fun ch => !(ch == ','))
            if s.isEmpty then c :: innerReplAux repl fuel rest false
            else
              repl ([','] ++ s) [','] s ++ innerReplAux repl fuel (rest.drop s.length) false
      else
        if atStart then
          let s := (c :: rest).takeWhile (fun ch => !(ch == ','))
          repl s [] s ++ innerReplAux repl fuel ((c :: rest).drop s.length) false
        else
          c :: innerReplAux repl fuel rest false

def innerReplace (cs : List Char) (repl : List Char → List Char → List Char → List Char) :
    List Char :=
  innerReplAux repl (cs.length + 1) cs true

/-- The source's `whitePrevChars = [',', '(']`. -/
def whitePrevChar (c : Char) : Bool := c = ',' || c = '('

/-- The per-match replacer of the grouping pass's root-selector rewrite: keep
a valid previous character (`,` or `(`) and substitute the prefix for the rest
of the match. -/
def rootReplacerM (pfx : List Char) (m : List Char) : List Char :=
  match m with
  | [] => pfx
  | c0 :: _ => if whitePrevChar c0 then c0 :: pfx else pfx

/-- The member replacer of the grouping pass: a member containing a root
selector has it replaced via `rootReplacerM`; otherwise the prefix is inserted
before the member's first compound selector (`p + prefix + ' ' +
s.replace(/^ */, '')`). -/
def memberRepl (pfx : List Char) (item p s : List Char) : List Char :=
  if rootSelectorTest item then rootSelectorReplace item (rootReplacerM pfx)
  else p ++ pfx ++ [' '] ++ s.dropWhile (fun ch => ch == ' ')

/-- A plain style rule (`CSSStyleRule`): its selector text and its serialized
`cssText`. -/
structure CSSStyleRuleM where
  selectorText : String
  cssText : String
deriving DecidableEq, Repr

/-- JS `String.prototype.trim` on the character list (whitespace per
`Char.isWhitespace`, which covers the whitespace occurring in selector text). -/
def trimCs (cs : List Char) : List Char :=
  ((cs.dropWhile Char.isWhitespace).reverse.dropWhile Char.isWhitespace).reverse

/-- The source's `ScopedCSS.ruleStyle(rule, prefix)`. -/
def ruleStyle (rule : CSSStyleRuleM) (pfx : String) : String :=
  let selector := String.mk (trimCs rule.selectorText.toList)
  let cssText := rule.cssText.toList
  if selector = "html" ∨ selector = "body" ∨ selector = ":root" then
    String.mk (rootSelectorReplace cssText (fun _ => pfx.toList))
  else
    let sel := rule.selectorText.toList
    let cssText1 :=
      if rootCombinationTest sel then
        if !siblingSelectorTest sel then rootCombinationErase cssText else cssText
      else cssText
    String.mk (outerHeadReplace cssText1 (fun head => innerReplace head (memberRepl pfx.toList)))

/-- The rule kinds `ScopedCSS.rewrite` distinguishes: style rules are
rewritten, conditional groups (`@media`, `@supports`) recurse and re-wrap with
their condition text, and every other kind is copied verbatim. -/
inductive CSSRuleM where
  | style (rule : CSSStyleRuleM)
  | media (conditionText : String) (rules : List CSSRuleM)
  | supports (conditionText : String) (rules : List CSSRuleM)
  | otherRule (cssText : String)

mutual

/-- The source's `ScopedCSS.rewrite(rules, prefix)`. -/
def rewriteRules (pfx : String) : List CSSRuleM → String
  | [] => ""
  | r :: rs => rewriteOne pfx r ++ rewriteRules pfx rs

/-- One case of the `switch (rule.type)` of `ScopedCSS.rewrite`. -/
def rewriteOne (pfx : String) : CSSRuleM → String
  | CSSRuleM.style rule => ruleStyle rule pfx
  | CSSRuleM.media cond rules => "@media " ++ cond ++ " \x7b" ++ rewriteRules pfx rules ++ "\x7d"
  | CSSRuleM.supports cond rules => "@supports " ++ cond ++ " \x7b" ++ rewriteRules pfx rules ++ "\x7d"
  | CSSRuleM.otherRule cssText => cssText

end

/-- A stylesheet node: its text content and whether the processed marker
(`ScopedCSS.ModifiedTag`) is present. -/
structure StyleNodeM where
  textContent : String
  modified : Bool
deriving DecidableEq, Repr

/-- The source's `ScopedCSS.process(styleNode, prefix)`: a node carrying the processed
marker is returned untouched; a node with nonempty content has its rules
(parsed by the browser's CSSOM, abstracted by `parse`) rewritten in place and
is tagged with the marker; an empty node is left untouched now (a MutationObserver
is registered for its asynchronously injected content). -/
def scopedCSSProcess (parse : String → List CSSRuleM) (node : StyleNodeM)
    (pfx : String) : StyleNodeM :=
  if node.modified then node
  else if node.textContent ≠ "" then
    { textContent := rewriteRules pfx (parse node.textContent), modified := true }
  else node

/-! ## C8: the root-selector rewrite examples -/

/-- C8 (amended): with prefix `div[data-x="a"]`, a rule whose selector is
exactly `body` (likewise `html`, `:root`) has the root selector replaced
wholesale by the prefix; the grouped selector `.foo, .bar` has the prefix
prepended to each comma-separated member, producing
`div[data-x="a"] .foo,div[data-x="a"] .bar` — the grouping pass does not
preserve a space after the comma; and `html body` has the root combination
stripped so the result selector is exactly the prefix. -/
theorem ruleStyle_root_selector_rewrite :
    ruleStyle ⟨"body", "body \x7b color: red; \x7d"⟩ "div[data-x=\"a\"]"
      = "div[data-x=\"a\"] \x7b color: red; \x7d" ∧
    ruleStyle ⟨"html", "html \x7b color: red; \x7d"⟩ "div[data-x=\"a\"]"
      = "div[data-x=\"a\"] \x7b color: red; \x7d" ∧
    ruleStyle ⟨":root", ":root \x7b color: red; \x7d"⟩ "div[data-x=\"a\"]"
      = "div[data-x=\"a\"] \x7b color: red; \x7d" ∧
    ruleStyle ⟨".foo, .bar", ".foo, .bar \x7b color: red; \x7d"⟩ "div[data-x=\"a\"]"
      = "div[data-x=\"a\"] .foo,div[data-x=\"a\"] .bar \x7b color: red; \x7d" ∧
    ruleStyle ⟨"html body", "html body \x7b color: red; \x7d"⟩ "div[data-x=\"a\"]"
      = "div[data-x=\"a\"] \x7b color: red; \x7d" := by
  refine ⟨?_, ?_, ?_, ?_, ?_⟩ <;> rfl

/-- C8 counterexample: the claim expects the grouped selector `.foo, .bar` to
become `div[data-x="a"] .foo, div[data-x="a"] .bar` (with a space after the
comma), but the grouping pass captures the comma in the separator group and
strips the member's leading spaces, so the actual output has no space after
the comma. -/
theorem C8_counterexample :
    ruleStyle ⟨".foo, .bar", ".foo, .bar \x7b color: red; \x7d"⟩ "div[data-x=\"a\"]"
      ≠ "div[data-x=\"a\"] .foo, div[data-x=\"a\"] .bar \x7b color: red; \x7d" := by
  decide

/-! ## C9: idempotence of ScopedCSS.process -/

/-- C9: processing a stylesheet node a second time leaves its content exactly
as the first invocation produced it — a node with nonempty content is
rewritten once and tagged with the processed marker, which short-circuits any
later invocation, and an empty node is never modified by `process` itself. -/
theorem scopedCSSProcess_idempotent (parse : String → List CSSRuleM)
    (node : StyleNodeM) (pfx : String) :
    scopedCSSProcess parse (scopedCSSProcess parse node pfx) pfx
      = scopedCSSProcess parse node pfx := by
  unfold scopedCSSProcess
  by_cases hm : node.modified = true
  · simp [hm]
  · have hm' : node.modified = false := by simpa using hm
    by_cases ht : node.textContent = ""
    · simp [hm', ht]
    · simp [hm', ht]
